import Mathlib

/-!
Verification of the task-management microservice (`myapp.py`).

The service keeps an in-memory Python dict `tasks_db` mapping integer task
ids to task records, together with an integer counter `task_id_counter`.
We embed the dict as an association list `List (Int × Task)`: a Python dict
preserves insertion order, assignment to an existing key overwrites in
place, assignment to a fresh key appends at the end, and `del` removes the
(unique) entry. The five HTTP handlers become pure functions over an
explicit `Store` state; the wall clock (`datetime.now()`) becomes an
explicit `now : Nat` argument; `raise HTTPException(...)` becomes the
`Except` monad's error case.
-/

namespace Myapp

/-- The four-valued task status enum (`TaskStatus` in `myapp.py`). -/
inductive TaskStatus where
  | pending
  | in_progress
  | completed
  | cancelled
deriving DecidableEq, Repr

/-- A task record (`Task` model in `myapp.py`). Timestamps are abstracted
to natural numbers. -/
structure Task where
  id : Int
  description : String
  status : TaskStatus
  created_at : Nat
  updated_at : Nat
deriving DecidableEq, Repr

/-- Request body for `POST /tasks` (`TaskCreate` in `myapp.py`); `status`
defaults to `pending`. -/
structure TaskCreate where
  description : String
  status : TaskStatus := TaskStatus.pending
deriving DecidableEq, Repr

/-- Request body for `PUT /tasks/{task_id}` (`TaskUpdate` in `myapp.py`). -/
structure TaskUpdate where
  status : TaskStatus
deriving DecidableEq, Repr

/-- An HTTP error raised by a handler (`HTTPException` in FastAPI). -/
structure HTTPException where
  status_code : Nat
  detail : String
deriving DecidableEq, Repr

/-- Python dict key-membership test (`task_id in tasks_db`). -/
def dictContains : List (Int × Task) → Int → Bool
  | [], _ => false
  | p :: rest, k => if p.1 = k then true else dictContains rest k

/-- Python dict lookup (`tasks_db[task_id]`), returning `none` when the key
is absent. -/
def dictGet : List (Int × Task) → Int → Option Task
  | [], _ => none
  | p :: rest, k => if p.1 = k then some p.2 else dictGet rest k

/-- Python dict assignment (`tasks_db[k] = v`): overwrites in place when the
key is present, appends at the end when it is fresh. -/
def dictSet : List (Int × Task) → Int → Task → List (Int × Task)
  | [], k, v => [(k, v)]
  | p :: rest, k, v => if p.1 = k then (k, v) :: rest else p :: dictSet rest k v

/-- Python dict deletion (`del tasks_db[k]`): removes the first entry with
the given key (keys are unique in any reachable store). -/
def dictDelete : List (Int × Task) → Int → List (Int × Task)
  | [], _ => []
  | p :: rest, k => if p.1 = k then rest else p :: dictDelete rest k

/-- The mutable module state of `myapp.py`: `tasks_db` and
`task_id_counter`. -/
structure Store where
  tasks_db : List (Int × Task)
  task_id_counter : Int
deriving DecidableEq, Repr

/-- The state at process start: `tasks_db = {}`, `task_id_counter = 0`. -/
def initStore : Store :=
  { tasks_db := [], task_id_counter := 0 }

/-- The 404 detail string `f"Task with ID {task_id} not found"`. -/
def notFoundDetail (task_id : Int) : String :=
  "Task with ID " ++ toString task_id ++ " not found"

/-- The `HTTPException(status_code=404, detail=...)` raised by the
`get`/`update`/`delete` handlers on an absent id. -/
def notFoundExc (task_id : Int) : HTTPException :=
  { status_code := 404, detail := notFoundDetail task_id }

/-- `POST /tasks` handler `create_task`: increments the counter, builds the
new task with both timestamps set to `now`, inserts it under the new
counter value and returns it. Never fails. -/
def create_task (s : Store) (task : TaskCreate) (now : Nat) : Store × Task :=
  let task_id_counter := s.task_id_counter + 1
  let new_task : Task :=
    { id := task_id_counter
      description := task.description
      status := task.status
      created_at := now
      updated_at := now }
  ({ tasks_db := dictSet s.tasks_db task_id_counter new_task
     task_id_counter := task_id_counter }, new_task)

/-- `GET /tasks` handler `get_tasks`: `list(tasks_db.values())`. -/
def get_tasks (s : Store) : List Task :=
  s.tasks_db.map Prod.snd

/-- `GET /tasks/{task_id}` handler `get_task`: 404 when absent, otherwise
the stored record. -/
def get_task (s : Store) (task_id : Int) : Except HTTPException Task :=
  if dictContains s.tasks_db task_id = false then
    .error (notFoundExc task_id)
  else
    match dictGet s.tasks_db task_id with
    | none => .error (notFoundExc task_id)
    | some t => .ok t

/-- `PUT /tasks/{task_id}` handler `update_task_status`: 404 when absent,
otherwise rebuilds the record with the new status and `updated_at = now`,
stores it back under the same key and returns it with the new store. -/
def update_task_status (s : Store) (task_id : Int) (task_update : TaskUpdate)
    (now : Nat) : Except HTTPException (Store × Task) :=
  if dictContains s.tasks_db task_id = false then
    .error (notFoundExc task_id)
  else
    match dictGet s.tasks_db task_id with
    | none => .error (notFoundExc task_id)
    | some existing_task =>
      let updated_task : Task :=
        { id := existing_task.id
          description := existing_task.description
          status := task_update.status
          created_at := existing_task.created_at
          updated_at := now }
      .ok ({ s with tasks_db := dictSet s.tasks_db task_id updated_task },
           updated_task)

/-- `DELETE /tasks/{task_id}` handler `delete_task`: 404 when absent,
otherwise removes the entry. -/
def delete_task (s : Store) (task_id : Int) : Except HTTPException Store :=
  if dictContains s.tasks_db task_id = false then
    .error (notFoundExc task_id)
  else
    .ok { s with tasks_db := dictDelete s.tasks_db task_id }

/-! ### Basic lemmas about the dict embedding -/

theorem dictContains_eq_isSome (db : List (Int × Task)) (k : Int) :
    dictContains db k = (dictGet db k).isSome := by
  induction db with
  | nil => rfl
  | cons p rest ih =>
    by_cases h : p.1 = k <;> simp [dictContains, dictGet, h, ih]

theorem dictContains_false_iff (db : List (Int × Task)) (k : Int) :
    dictContains db k = false ↔ k ∉ db.map Prod.fst := by
  induction db with
  | nil => simp [dictContains]
  | cons p rest ih =>
    by_cases h : p.1 = k
    · simp only [dictContains, if_pos h, List.map_cons, List.mem_cons]
      constructor
      · intro hf
        exact absurd hf (by simp)
      · intro hn
        exact absurd (Or.inl h.symm) hn
    · simp only [dictContains, if_neg h, List.map_cons, List.mem_cons]
      rw [ih]
      constructor
      · intro hn hmem
        rcases hmem with h1 | h2
        · exact h h1.symm
        · exact hn h2
      · intro hn hm
        exact hn (Or.inr hm)

theorem dictContains_true_iff (db : List (Int × Task)) (k : Int) :
    dictContains db k = true ↔ k ∈ db.map Prod.fst := by
  constructor
  · intro h
    by_contra hmem
    rw [(dictContains_false_iff db k).mpr hmem] at h
    exact Bool.false_ne_true h
  · intro hmem
    cases hb : dictContains db k
    · exact absurd ((dictContains_false_iff db k).mp hb) (not_not_intro hmem)
    · rfl

theorem dictGet_set_self (db : List (Int × Task)) (k : Int) (v : Task) :
    dictGet (dictSet db k v) k = some v := by
  induction db with
  | nil => simp [dictSet, dictGet]
  | cons p rest ih =>
    by_cases h : p.1 = k <;> simp [dictSet, dictGet, h, ih]

theorem dictGet_set_ne (db : List (Int × Task)) (k k' : Int) (v : Task)
    (h : k' ≠ k) : dictGet (dictSet db k v) k' = dictGet db k' := by
  have h1 : ¬ k = k' := fun hh => h hh.symm
  induction db with
  | nil => simp only [dictSet, dictGet, if_neg h1]
  | cons p rest ih =>
    by_cases hp : p.1 = k
    · have h2 : ¬ p.1 = k' := by
        rw [hp]
        exact h1
      simp only [dictSet, if_pos hp, dictGet, if_neg h1, if_neg h2]
    · simp only [dictSet, if_neg hp, dictGet]
      by_cases hp' : p.1 = k'
      · simp only [if_pos hp']
      · simp only [if_neg hp', ih]

theorem dictGet_delete_ne (db : List (Int × Task)) (k k' : Int)
    (h : k' ≠ k) : dictGet (dictDelete db k) k' = dictGet db k' := by
  induction db with
  | nil => rfl
  | cons p rest ih =>
    by_cases hp : p.1 = k
    · have h2 : ¬ p.1 = k' := by
        rw [hp]
        exact fun hh => h hh.symm
      simp only [dictDelete, if_pos hp, dictGet, if_neg h2]
    · simp only [dictDelete, if_neg hp, dictGet]
      by_cases hp' : p.1 = k'
      · simp only [if_pos hp']
      · simp only [if_neg hp', ih]

theorem dictDelete_sublist (db : List (Int × Task)) (k : Int) :
    List.Sublist (dictDelete db k) db := by
  induction db with
  | nil => exact List.Sublist.refl _
  | cons p rest ih =>
    by_cases h : p.1 = k
    · rw [show dictDelete (p :: rest) k = rest from by simp [dictDelete, h]]
      exact List.sublist_cons_self p rest
    · rw [show dictDelete (p :: rest) k = p :: dictDelete rest k from by
        simp [dictDelete, h]]
      exact List.Sublist.cons₂ p ih

theorem dictContains_delete_self (db : List (Int × Task)) (k : Int)
    (hnd : (db.map Prod.fst).Nodup) :
    dictContains (dictDelete db k) k = false := by
  induction db with
  | nil => rfl
  | cons p rest ih =>
    simp only [List.map_cons, List.nodup_cons] at hnd
    by_cases h : p.1 = k
    · subst h
      simp only [dictDelete, if_pos rfl]
      exact (dictContains_false_iff rest p.1).mpr hnd.1
    · simp [dictDelete, dictContains, h, ih hnd.2]

theorem keys_dictSet_of_contains (db : List (Int × Task)) (k : Int) (v : Task)
    (h : dictContains db k = true) :
    (dictSet db k v).map Prod.fst = db.map Prod.fst := by
  induction db with
  | nil => simp [dictContains] at h
  | cons p rest ih =>
    by_cases hp : p.1 = k
    · simp [dictSet, hp]
    · simp only [dictContains, if_neg hp] at h
      simp [dictSet, hp, ih h]

theorem keys_dictSet_of_fresh (db : List (Int × Task)) (k : Int) (v : Task)
    (h : dictContains db k = false) :
    (dictSet db k v).map Prod.fst = db.map Prod.fst ++ [k] := by
  induction db with
  | nil => simp [dictSet]
  | cons p rest ih =>
    by_cases hp : p.1 = k
    · simp [dictContains, hp] at h
    · simp only [dictContains, if_neg hp] at h
      simp [dictSet, hp, ih h]

theorem length_dictSet_of_contains (db : List (Int × Task)) (k : Int) (v : Task)
    (h : dictContains db k = true) :
    (dictSet db k v).length = db.length := by
  induction db with
  | nil => simp [dictContains] at h
  | cons p rest ih =>
    by_cases hp : p.1 = k
    · simp [dictSet, hp]
    · simp only [dictContains, if_neg hp] at h
      simp [dictSet, hp, ih h]

theorem length_dictSet_of_fresh (db : List (Int × Task)) (k : Int) (v : Task)
    (h : dictContains db k = false) :
    (dictSet db k v).length = db.length + 1 := by
  induction db with
  | nil => simp [dictSet]
  | cons p rest ih =>
    by_cases hp : p.1 = k
    · simp [dictContains, hp] at h
    · simp only [dictContains, if_neg hp] at h
      simp [dictSet, hp, ih h]

theorem length_dictDelete_of_contains (db : List (Int × Task)) (k : Int)
    (h : dictContains db k = true) :
    (dictDelete db k).length + 1 = db.length := by
  induction db with
  | nil => simp [dictContains] at h
  | cons p rest ih =>
    by_cases hp : p.1 = k
    · simp [dictDelete, hp]
    · simp only [dictContains, if_neg hp] at h
      simp [dictDelete, hp, ih h]

theorem mem_dictSet (db : List (Int × Task)) (k : Int) (v : Task) (q : Int × Task)
    (hq : q ∈ dictSet db k v) : q = (k, v) ∨ q ∈ db := by
  induction db with
  | nil => simpa [dictSet] using hq
  | cons p rest ih =>
    by_cases hp : p.1 = k
    · simp only [dictSet, if_pos hp, List.mem_cons] at hq
      rcases hq with h | h
      · exact Or.inl h
      · exact Or.inr (List.mem_cons_of_mem p h)
    · simp only [dictSet, if_neg hp, List.mem_cons] at hq
      rcases hq with h | h
      · exact Or.inr (h ▸ List.mem_cons_self p rest)
      · rcases ih h with h' | h'
        · exact Or.inl h'
        · exact Or.inr (List.mem_cons_of_mem p h')

theorem dictGet_mem (db : List (Int × Task)) (k : Int) (t : Task)
    (h : dictGet db k = some t) : (k, t) ∈ db := by
  induction db with
  | nil => simp [dictGet] at h
  | cons p rest ih =>
    by_cases hp : p.1 = k
    · simp only [dictGet, if_pos hp, Option.some.injEq] at h
      subst hp; subst h
      exact List.mem_cons_self p rest
    · simp only [dictGet, if_neg hp] at h
      exact List.mem_cons_of_mem p (ih h)

theorem dictGet_none_of_not_contains (db : List (Int × Task)) (k : Int)
    (h : dictContains db k = false) : dictGet db k = none := by
  rw [dictContains_eq_isSome] at h
  exact Option.not_isSome_iff_eq_none.mp (by simp [h])

theorem dictGet_isSome_of_contains (db : List (Int × Task)) (k : Int)
    (h : dictContains db k = true) : ∃ t, dictGet db k = some t := by
  rw [dictContains_eq_isSome] at h
  exact Option.isSome_iff_exists.mp h

/-! ### Characterization of the handlers on present / absent ids -/

theorem get_task_eq_error (s : Store) (task_id : Int)
    (h : dictContains s.tasks_db task_id = false) :
    get_task s task_id = .error (notFoundExc task_id) := by
  unfold get_task
  rw [h]
  simp

theorem get_task_eq_ok (s : Store) (task_id : Int) (t : Task)
    (hget : dictGet s.tasks_db task_id = some t) :
    get_task s task_id = .ok t := by
  have hc : dictContains s.tasks_db task_id = true := by
    rw [dictContains_eq_isSome, hget]
    rfl
  unfold get_task
  rw [hc, hget]
  simp

/-- The record built by a successful `update_task_status` from the stored
record `t` and the new status. -/
def updatedTask (t : Task) (task_update : TaskUpdate) (now : Nat) : Task :=
  { id := t.id
    description := t.description
    status := task_update.status
    created_at := t.created_at
    updated_at := now }

theorem update_task_status_eq_error (s : Store) (task_id : Int)
    (b : TaskUpdate) (now : Nat)
    (h : dictContains s.tasks_db task_id = false) :
    update_task_status s task_id b now = .error (notFoundExc task_id) := by
  unfold update_task_status
  rw [h]
  simp

theorem update_task_status_eq_ok (s : Store) (task_id : Int) (b : TaskUpdate)
    (now : Nat) (t : Task) (hget : dictGet s.tasks_db task_id = some t) :
    update_task_status s task_id b now =
      .ok ({ s with tasks_db := dictSet s.tasks_db task_id (updatedTask t b now) },
           updatedTask t b now) := by
  have hc : dictContains s.tasks_db task_id = true := by
    rw [dictContains_eq_isSome, hget]
    rfl
  unfold update_task_status
  rw [hc, hget]
  simp [updatedTask]

theorem delete_task_eq_error (s : Store) (task_id : Int)
    (h : dictContains s.tasks_db task_id = false) :
    delete_task s task_id = .error (notFoundExc task_id) := by
  unfold delete_task
  rw [h]
  simp

theorem delete_task_eq_ok (s : Store) (task_id : Int)
    (h : dictContains s.tasks_db task_id = true) :
    delete_task s task_id = .ok { s with tasks_db := dictDelete s.tasks_db task_id } := by
  unfold delete_task
  rw [h]
  simp

/-! ### Request sequences -/

/-- One HTTP request, abstracted to its store-relevant content. -/
inductive Op where
  | create (body : TaskCreate)
  | get (task_id : Int)
  | list
  | update (task_id : Int) (body : TaskUpdate)
  | delete (task_id : Int)
deriving DecidableEq, Repr

/-- The store transition performed by one request arriving at time `now`.
Read-only requests leave the store unchanged, and so do failing `update`
and `delete` requests: those handlers raise `HTTPException` before
touching `tasks_db` or the counter. -/
def applyOp (s : Store) (op : Op) (now : Nat) : Store :=
  match op with
  | .create body => (create_task s body now).1
  | .get _ => s
  | .list => s
  | .update task_id body =>
    match update_task_status s task_id body now with
    | .ok r => r.1
    | .error _ => s
  | .delete task_id =>
    match delete_task s task_id with
    | .ok s' => s'
    | .error _ => s

/-- Run a sequence of timestamped requests against a store. -/
def runOps (s : Store) : List (Op × Nat) → Store
  | [] => s
  | e :: rest => runOps (applyOp s e.1 e.2) rest

/-- The keys of the store's dict, in insertion order. -/
def storeKeys (s : Store) : List Int := s.tasks_db.map Prod.fst

/-- Structural invariant of every reachable store: every key is at most
the counter, keys are strictly increasing in insertion order, and each
record's `id` field equals its key. -/
def StoreInv (s : Store) : Prop :=
  (∀ k ∈ storeKeys s, k ≤ s.task_id_counter) ∧
  (storeKeys s).Pairwise (· < ·) ∧
  (∀ p ∈ s.tasks_db, p.2.id = p.1)

theorem storeInv_init : StoreInv initStore := by
  refine ⟨?_, ?_, ?_⟩ <;> simp [initStore, storeKeys]

theorem counter_fresh (s : Store) (h : StoreInv s) :
    dictContains s.tasks_db (s.task_id_counter + 1) = false := by
  rw [dictContains_false_iff]
  intro hmem
  have := h.1 _ hmem
  omega

theorem storeInv_create (s : Store) (body : TaskCreate) (now : Nat)
    (h : StoreInv s) : StoreInv (create_task s body now).1 := by
  have hfresh := counter_fresh s h
  obtain ⟨hbound, hpair, hid⟩ := h
  refine ⟨?_, ?_, ?_⟩
  · intro k hk
    simp only [create_task, storeKeys,
      keys_dictSet_of_fresh _ _ _ hfresh, List.mem_append,
      List.mem_singleton] at hk ⊢
    rcases hk with hk | hk
    · have := hbound k hk
      omega
    · omega
  · simp only [create_task, storeKeys, keys_dictSet_of_fresh _ _ _ hfresh]
    rw [List.pairwise_append]
    refine ⟨hpair, List.pairwise_singleton _ _, ?_⟩
    intro a ha b hb
    simp only [List.mem_singleton] at hb
    subst hb
    have := hbound a ha
    omega
  · intro p hp
    simp only [create_task] at hp
    rcases mem_dictSet _ _ _ _ hp with hp | hp
    · subst hp
      rfl
    · exact hid p hp

theorem storeInv_update (s : Store) (task_id : Int) (b : TaskUpdate)
    (now : Nat) (t : Task) (hget : dictGet s.tasks_db task_id = some t)
    (h : StoreInv s) :
    StoreInv { s with tasks_db := dictSet s.tasks_db task_id (updatedTask t b now) } := by
  have hc : dictContains s.tasks_db task_id = true := by
    rw [dictContains_eq_isSome, hget]
    rfl
  obtain ⟨hbound, hpair, hid⟩ := h
  have hkeys : storeKeys { s with tasks_db := dictSet s.tasks_db task_id (updatedTask t b now) }
      = storeKeys s := keys_dictSet_of_contains _ _ _ hc
  refine ⟨?_, ?_, ?_⟩
  · rw [hkeys]
    exact hbound
  · rw [hkeys]
    exact hpair
  · intro p hp
    rcases mem_dictSet _ _ _ _ hp with hp | hp
    · subst hp
      exact hid (task_id, t) (dictGet_mem _ _ _ hget)
    · exact hid p hp

theorem storeInv_delete (s : Store) (task_id : Int) (h : StoreInv s) :
    StoreInv { s with tasks_db := dictDelete s.tasks_db task_id } := by
  obtain ⟨hbound, hpair, hid⟩ := h
  have hsub := dictDelete_sublist s.tasks_db task_id
  have hkeys : List.Sublist (storeKeys { s with tasks_db := dictDelete s.tasks_db task_id })
      (storeKeys s) := List.Sublist.map Prod.fst hsub
  refine ⟨?_, ?_, ?_⟩
  · intro k hk
    exact hbound k (hkeys.mem hk)
  · exact hpair.sublist hkeys
  · intro p hp
    exact hid p (hsub.mem hp)

theorem storeInv_applyOp (s : Store) (op : Op) (now : Nat) (h : StoreInv s) :
    StoreInv (applyOp s op now) := by
  cases op with
  | create body => exact storeInv_create s body now h
  | get task_id => exact h
  | list => exact h
  | update task_id body =>
    simp only [applyOp]
    cases hc : dictContains s.tasks_db task_id with
    | false =>
      rw [update_task_status_eq_error s task_id body now hc]
      exact h
    | true =>
      obtain ⟨t, hget⟩ := dictGet_isSome_of_contains _ _ hc
      rw [update_task_status_eq_ok s task_id body now t hget]
      exact storeInv_update s task_id body now t hget h
  | delete task_id =>
    simp only [applyOp]
    cases hc : dictContains s.tasks_db task_id with
    | false =>
      rw [delete_task_eq_error s task_id hc]
      exact h
    | true =>
      rw [delete_task_eq_ok s task_id hc]
      exact storeInv_delete s task_id h

theorem storeInv_runOps (tr : List (Op × Nat)) (s : Store) (h : StoreInv s) :
    StoreInv (runOps s tr) := by
  induction tr generalizing s with
  | nil => exact h
  | cons e rest ih => exact ih _ (storeInv_applyOp s e.1 e.2 h)

theorem counter_applyOp_le (s : Store) (op : Op) (now : Nat) :
    s.task_id_counter ≤ (applyOp s op now).task_id_counter := by
  cases op with
  | create body => simp [applyOp, create_task]
  | get task_id => exact le_refl _
  | list => exact le_refl _
  | update task_id body =>
    simp only [applyOp]
    cases hc : dictContains s.tasks_db task_id with
    | false =>
      rw [update_task_status_eq_error s task_id body now hc]
    | true =>
      obtain ⟨t, hget⟩ := dictGet_isSome_of_contains _ _ hc
      rw [update_task_status_eq_ok s task_id body now t hget]
  | delete task_id =>
    simp only [applyOp]
    cases hc : dictContains s.tasks_db task_id with
    | false =>
      rw [delete_task_eq_error s task_id hc]
    | true =>
      rw [delete_task_eq_ok s task_id hc]

theorem counter_runOps_le (tr : List (Op × Nat)) (s : Store) :
    s.task_id_counter ≤ (runOps s tr).task_id_counter := by
  induction tr generalizing s with
  | nil => exact le_refl _
  | cons e rest ih =>
    exact le_trans (counter_applyOp_le s e.1 e.2) (ih _)

/-! ### Assigned ids, counting, and time along a request sequence -/

/-- The ids assigned by the `create` requests of a sequence, in order. -/
def assignedIds (s : Store) : List (Op × Nat) → List Int
  | [] => []
  | e :: rest =>
    match e.1 with
    | .create _ => (s.task_id_counter + 1) :: assignedIds (applyOp s e.1 e.2) rest
    | _ => assignedIds (applyOp s e.1 e.2) rest

theorem assignedIds_lt (tr : List (Op × Nat)) (s : Store) (x : Int)
    (hx : x ∈ assignedIds s tr) : s.task_id_counter < x := by
  induction tr generalizing s with
  | nil => simp [assignedIds] at hx
  | cons e rest ih =>
    obtain ⟨op, now⟩ := e
    cases op with
    | create body =>
      simp only [assignedIds, List.mem_cons] at hx
      rcases hx with hx | hx
      · omega
      · have h1 := ih _ hx
        have h2 := counter_applyOp_le s (Op.create body) now
        omega
    | get task_id =>
      have h1 := ih _ hx
      exact lt_of_le_of_lt (counter_applyOp_le s (Op.get task_id) now) h1
    | list =>
      have h1 := ih _ hx
      exact lt_of_le_of_lt (counter_applyOp_le s Op.list now) h1
    | update task_id body =>
      have h1 := ih _ hx
      exact lt_of_le_of_lt (counter_applyOp_le s (Op.update task_id body) now) h1
    | delete task_id =>
      have h1 := ih _ hx
      exact lt_of_le_of_lt (counter_applyOp_le s (Op.delete task_id) now) h1

theorem assignedIds_pairwise (tr : List (Op × Nat)) (s : Store) :
    (assignedIds s tr).Pairwise (· < ·) := by
  induction tr generalizing s with
  | nil => simp [assignedIds]
  | cons e rest ih =>
    obtain ⟨op, now⟩ := e
    cases op with
    | create body =>
      simp only [assignedIds]
      refine List.Pairwise.cons ?_ (ih _)
      intro x hx
      have h1 := assignedIds_lt rest _ x hx
      have h2 : (applyOp s (Op.create body) now).task_id_counter =
          s.task_id_counter + 1 := rfl
      omega
    | get task_id => exact ih _
    | list => exact ih _
    | update task_id body => exact ih _
    | delete task_id => exact ih _

/-- Once an id is absent and within the already-used range, no later
request sequence ever makes it present again: `create` only assigns fresh
ids above the counter, and `update`/`delete` never add keys. -/
theorem absent_stays_absent (tr : List (Op × Nat)) (s : Store) (id : Int)
    (hinv : StoreInv s) (habs : dictContains s.tasks_db id = false)
    (hle : id ≤ s.task_id_counter) :
    dictContains (runOps s tr).tasks_db id = false := by
  induction tr generalizing s with
  | nil => exact habs
  | cons e rest ih =>
    obtain ⟨op, now⟩ := e
    have hle' : id ≤ (applyOp s op now).task_id_counter :=
      le_trans hle (counter_applyOp_le s op now)
    refine ih _ (storeInv_applyOp s op now hinv) ?_ hle'
    cases op with
    | create body =>
      have hfresh := counter_fresh s hinv
      rw [dictContains_false_iff] at habs ⊢
      simp only [applyOp, create_task, storeKeys,
        keys_dictSet_of_fresh _ _ _ hfresh, List.mem_append,
        List.mem_singleton]
      intro hmem
      rcases hmem with hmem | hmem
      · exact habs hmem
      · omega
    | get task_id => exact habs
    | list => exact habs
    | update task_id body =>
      simp only [applyOp]
      cases hc : dictContains s.tasks_db task_id with
      | false =>
        rw [update_task_status_eq_error s task_id body now hc]
        exact habs
      | true =>
        obtain ⟨t, hget⟩ := dictGet_isSome_of_contains _ _ hc
        rw [update_task_status_eq_ok s task_id body now t hget]
        rw [dictContains_false_iff] at habs ⊢
        rwa [show List.map Prod.fst
            (dictSet s.tasks_db task_id (updatedTask t body now)) =
            List.map Prod.fst s.tasks_db from
          keys_dictSet_of_contains _ _ _ hc]
    | delete task_id =>
      simp only [applyOp]
      cases hc : dictContains s.tasks_db task_id with
      | false =>
        rw [delete_task_eq_error s task_id hc]
        exact habs
      | true =>
        rw [delete_task_eq_ok s task_id hc]
        rw [dictContains_false_iff] at habs ⊢
        intro hmem
        exact habs ((List.Sublist.map Prod.fst
          (dictDelete_sublist s.tasks_db task_id)).mem hmem)

/-- The number of `create` requests in a sequence (each one succeeds). -/
def countCreates : List (Op × Nat) → Nat
  | [] => 0
  | e :: rest =>
    match e.1 with
    | .create _ => countCreates rest + 1
    | _ => countCreates rest

/-- The number of `delete` requests of a sequence that succeed when the
sequence is run from the given store. -/
def countDeletes : Store → List (Op × Nat) → Nat
  | _, [] => 0
  | s, e :: rest =>
    match e.1 with
    | .delete task_id =>
      (if dictContains s.tasks_db task_id then 1 else 0) +
        countDeletes (applyOp s e.1 e.2) rest
    | _ => countDeletes (applyOp s e.1 e.2) rest

theorem length_runOps (tr : List (Op × Nat)) (s : Store) (hinv : StoreInv s) :
    (runOps s tr).tasks_db.length + countDeletes s tr =
      s.tasks_db.length + countCreates tr := by
  induction tr generalizing s with
  | nil => simp [runOps, countDeletes, countCreates]
  | cons e rest ih =>
    obtain ⟨op, now⟩ := e
    have ih' := ih (applyOp s op now) (storeInv_applyOp s op now hinv)
    cases op with
    | create body =>
      have hfresh := counter_fresh s hinv
      have hlen : (applyOp s (Op.create body) now).tasks_db.length =
          s.tasks_db.length + 1 := by
        simp only [applyOp, create_task]
        exact length_dictSet_of_fresh _ _ _ hfresh
      simp only [runOps, countDeletes, countCreates] at ih' ⊢
      omega
    | get task_id =>
      simpa only [runOps, countDeletes, countCreates] using ih'
    | list =>
      simpa only [runOps, countDeletes, countCreates] using ih'
    | update task_id body =>
      have hlen : (applyOp s (Op.update task_id body) now).tasks_db.length =
          s.tasks_db.length := by
        simp only [applyOp]
        cases hc : dictContains s.tasks_db task_id with
        | false => rw [update_task_status_eq_error s task_id body now hc]
        | true =>
          obtain ⟨t, hget⟩ := dictGet_isSome_of_contains _ _ hc
          rw [update_task_status_eq_ok s task_id body now t hget]
          exact length_dictSet_of_contains _ _ _ hc
      simp only [runOps, countDeletes, countCreates] at ih' ⊢
      omega
    | delete task_id =>
      cases hc : dictContains s.tasks_db task_id with
      | false =>
        have hsame : applyOp s (Op.delete task_id) now = s := by
          simp only [applyOp, delete_task_eq_error s task_id hc]
        simp only [runOps, countDeletes, countCreates, hc, Bool.false_eq_true,
          if_false] at ih' ⊢
        rw [hsame] at ih' ⊢
        omega
      | true =>
        have hlen : (applyOp s (Op.delete task_id) now).tasks_db.length + 1 =
            s.tasks_db.length := by
          simp only [applyOp, delete_task_eq_ok s task_id hc]
          exact length_dictDelete_of_contains _ _ hc
        simp only [runOps, countDeletes, countCreates, hc, eq_self_iff_true,
          if_true] at ih' ⊢
        omega

/-- Monotone clock: successive request timestamps never decrease, starting
from the given time. -/
def timesMono : Nat → List (Op × Nat) → Prop
  | _, [] => True
  | t, e :: rest => t ≤ e.2 ∧ timesMono e.2 rest

/-- All stored records have ordered timestamps bounded by the given time. -/
def TimeInv (s : Store) (t : Nat) : Prop :=
  ∀ p ∈ s.tasks_db, p.2.created_at ≤ p.2.updated_at ∧ p.2.updated_at ≤ t

theorem timeInv_weaken (s : Store) (t t' : Nat) (h : TimeInv s t)
    (hle : t ≤ t') : TimeInv s t' := by
  intro p hp
  obtain ⟨h1, h2⟩ := h p hp
  exact ⟨h1, le_trans h2 hle⟩

theorem timeInv_applyOp (s : Store) (op : Op) (now t : Nat)
    (h : TimeInv s t) (hle : t ≤ now) : TimeInv (applyOp s op now) now := by
  cases op with
  | create body =>
    intro p hp
    simp only [applyOp, create_task] at hp
    rcases mem_dictSet _ _ _ _ hp with hp | hp
    · subst hp
      exact ⟨le_refl _, le_refl _⟩
    · obtain ⟨h1, h2⟩ := h p hp
      exact ⟨h1, le_trans h2 hle⟩
  | get task_id => exact timeInv_weaken s t now h hle
  | list => exact timeInv_weaken s t now h hle
  | update task_id body =>
    simp only [applyOp]
    cases hc : dictContains s.tasks_db task_id with
    | false =>
      rw [update_task_status_eq_error s task_id body now hc]
      exact timeInv_weaken s t now h hle
    | true =>
      obtain ⟨u, hget⟩ := dictGet_isSome_of_contains _ _ hc
      rw [update_task_status_eq_ok s task_id body now u hget]
      intro p hp
      rcases mem_dictSet _ _ _ _ hp with hp | hp
      · subst hp
        obtain ⟨h1, h2⟩ := h (task_id, u) (dictGet_mem _ _ _ hget)
        exact ⟨le_trans (le_trans h1 h2) hle, le_refl _⟩
      · obtain ⟨h1, h2⟩ := h p hp
        exact ⟨h1, le_trans h2 hle⟩
  | delete task_id =>
    simp only [applyOp]
    cases hc : dictContains s.tasks_db task_id with
    | false =>
      rw [delete_task_eq_error s task_id hc]
      exact timeInv_weaken s t now h hle
    | true =>
      rw [delete_task_eq_ok s task_id hc]
      intro p hp
      obtain ⟨h1, h2⟩ := h p ((dictDelete_sublist s.tasks_db task_id).mem hp)
      exact ⟨h1, le_trans h2 hle⟩

theorem timeInv_runOps (tr : List (Op × Nat)) (s : Store) (t : Nat)
    (h : TimeInv s t) (hmono : timesMono t tr) :
    ∃ t', TimeInv (runOps s tr) t' := by
  induction tr generalizing s t with
  | nil => exact ⟨t, h⟩
  | cons e rest ih =>
    obtain ⟨h1, h2⟩ := hmono
    exact ih (applyOp s e.1 e.2) e.2 (timeInv_applyOp s e.1 e.2 t h h1) h2

/-! ### Sample data for witnesses -/

/-- A concrete stored task used to instantiate theorems with hypotheses. -/
def sampleTask : Task :=
  { id := 1
    description := "a"
    status := TaskStatus.pending
    created_at := 0
    updated_at := 0 }

/-- A concrete store holding `sampleTask` under id 1, counter 1. -/
def sampleStore : Store :=
  { tasks_db := [(1, sampleTask)], task_id_counter := 1 }

/-! ### Claims -/

/-- C1: `create_task` with description `D` and no status given always
succeeds (it is a total function), assigns id equal to the previous
counter value plus one, increments the counter, and returns a task with
status `pending`, description `D`, and `created_at` equal to
`updated_at`. -/
theorem create_default_spec (s : Store) (D : String) (now : Nat) :
    (create_task s { description := D } now).2.id = s.task_id_counter + 1 ∧
    (create_task s { description := D } now).1.task_id_counter =
      s.task_id_counter + 1 ∧
    (create_task s { description := D } now).2.status = TaskStatus.pending ∧
    (create_task s { description := D } now).2.description = D ∧
    (create_task s { description := D } now).2.created_at =
      (create_task s { description := D } now).2.updated_at :=
  ⟨rfl, rfl, rfl, rfl, rfl⟩

/-- C2: updating a stored task succeeds, sets the requested status, does
not decrease `updated_at` when the clock is monotone (`t.updated_at ≤ now`),
and preserves `id`, `description`, and `created_at`. -/
theorem update_present_spec (s : Store) (task_id : Int) (t : Task)
    (S : TaskStatus) (now : Nat)
    (hget : dictGet s.tasks_db task_id = some t)
    (hclock : t.updated_at ≤ now) :
    ∃ s' u, update_task_status s task_id ⟨S⟩ now = Except.ok (s', u) ∧
      u.status = S ∧ t.updated_at ≤ u.updated_at ∧
      u.id = t.id ∧ u.description = t.description ∧
      u.created_at = t.created_at :=
  ⟨_, _, update_task_status_eq_ok s task_id ⟨S⟩ now t hget,
    rfl, hclock, rfl, rfl, rfl⟩

/-- Witness for C2 at a concrete store, task, status and time. -/
theorem update_present_spec_witness :
    ∃ s' u, update_task_status sampleStore 1 ⟨TaskStatus.completed⟩ 5 =
        Except.ok (s', u) ∧
      u.status = TaskStatus.completed ∧ sampleTask.updated_at ≤ u.updated_at ∧
      u.id = sampleTask.id ∧ u.description = sampleTask.description ∧
      u.created_at = sampleTask.created_at :=
  update_present_spec sampleStore 1 sampleTask TaskStatus.completed 5
    (by decide) (by decide)

/-- C3: on an absent id, `get_task`, `update_task_status` and `delete_task`
all fail with the 404 `HTTPException` whose detail interpolates the id as
`"Task with ID {id} not found"`; on a present id none of them fails. -/
theorem notFound_spec (s : Store) (task_id : Int) (S : TaskStatus) (now : Nat) :
    (dictContains s.tasks_db task_id = false →
      get_task s task_id = Except.error (notFoundExc task_id) ∧
      update_task_status s task_id ⟨S⟩ now = Except.error (notFoundExc task_id) ∧
      delete_task s task_id = Except.error (notFoundExc task_id) ∧
      (notFoundExc task_id).status_code = 404 ∧
      (notFoundExc task_id).detail =
        "Task with ID " ++ toString task_id ++ " not found") ∧
    (dictContains s.tasks_db task_id = true →
      (∃ t, get_task s task_id = Except.ok t) ∧
      (∃ r, update_task_status s task_id ⟨S⟩ now = Except.ok r) ∧
      (∃ s', delete_task s task_id = Except.ok s')) := by
  constructor
  · intro hc
    exact ⟨get_task_eq_error s task_id hc,
      update_task_status_eq_error s task_id ⟨S⟩ now hc,
      delete_task_eq_error s task_id hc, rfl, rfl⟩
  · intro hc
    obtain ⟨t, hget⟩ := dictGet_isSome_of_contains _ _ hc
    exact ⟨⟨t, get_task_eq_ok s task_id t hget⟩,
      ⟨_, update_task_status_eq_ok s task_id ⟨S⟩ now t hget⟩,
      ⟨_, delete_task_eq_ok s task_id hc⟩⟩

/-- Witness for C3: absent id 7 on the empty store fails everywhere with
the interpolated 404; present id 1 on the sample store never does. -/
theorem notFound_spec_witness :
    (get_task initStore 7 = Except.error (notFoundExc 7) ∧
     update_task_status initStore 7 ⟨TaskStatus.pending⟩ 0 =
       Except.error (notFoundExc 7) ∧
     delete_task initStore 7 = Except.error (notFoundExc 7) ∧
     (notFoundExc 7).status_code = 404 ∧
     (notFoundExc 7).detail =
       "Task with ID " ++ toString (7 : Int) ++ " not found") ∧
    ((∃ t, get_task sampleStore 1 = Except.ok t) ∧
     (∃ r, update_task_status sampleStore 1 ⟨TaskStatus.pending⟩ 0 = Except.ok r) ∧
     (∃ s', delete_task sampleStore 1 = Except.ok s')) :=
  ⟨(notFound_spec initStore 7 TaskStatus.pending 0).1 (by decide),
   (notFound_spec sampleStore 1 TaskStatus.pending 0).2 (by decide)⟩

/-- C8: a failing `update` or `delete` (absent id) is atomic — the whole
store, mapping and counter alike, is exactly what it was before the call. -/
theorem error_atomicity_spec (s : Store) (task_id : Int) (b : TaskUpdate)
    (now : Nat) (h : dictContains s.tasks_db task_id = false) :
    applyOp s (Op.update task_id b) now = s ∧
    applyOp s (Op.delete task_id) now = s ∧
    update_task_status s task_id b now = Except.error (notFoundExc task_id) ∧
    delete_task s task_id = Except.error (notFoundExc task_id) := by
  refine ⟨?_, ?_, update_task_status_eq_error s task_id b now h,
    delete_task_eq_error s task_id h⟩
  · simp only [applyOp, update_task_status_eq_error s task_id b now h]
  · simp only [applyOp, delete_task_eq_error s task_id h]

/-- Witness for C8 at a concrete absent id. -/
theorem error_atomicity_spec_witness :
    applyOp sampleStore (Op.update 9 ⟨TaskStatus.completed⟩) 3 = sampleStore ∧
    applyOp sampleStore (Op.delete 9) 3 = sampleStore ∧
    update_task_status sampleStore 9 ⟨TaskStatus.completed⟩ 3 =
      Except.error (notFoundExc 9) ∧
    delete_task sampleStore 9 = Except.error (notFoundExc 9) :=
  error_atomicity_spec sampleStore 9 ⟨TaskStatus.completed⟩ 3 (by decide)

/-- C9: frame conditions — a successful `update` or `delete` leaves the
counter and every entry other than the touched id unchanged, and `create`
leaves every existing entry unchanged while adding exactly the one new
entry under the fresh id. -/
theorem frame_spec (s : Store) (task_id k : Int) (b : TaskUpdate)
    (tc : TaskCreate) (now : Nat) (hk : k ≠ task_id)
    (hk' : k ≠ s.task_id_counter + 1) :
    (∀ s' u, update_task_status s task_id b now = Except.ok (s', u) →
      s'.task_id_counter = s.task_id_counter ∧
      dictGet s'.tasks_db k = dictGet s.tasks_db k) ∧
    (∀ s', delete_task s task_id = Except.ok s' →
      s'.task_id_counter = s.task_id_counter ∧
      dictGet s'.tasks_db k = dictGet s.tasks_db k) ∧
    dictGet (create_task s tc now).1.tasks_db k = dictGet s.tasks_db k ∧
    dictGet (create_task s tc now).1.tasks_db (s.task_id_counter + 1) =
      some (create_task s tc now).2 := by
  refine ⟨?_, ?_, ?_, ?_⟩
  · intro s' u hok
    cases hc : dictContains s.tasks_db task_id with
    | false =>
      rw [update_task_status_eq_error s task_id b now hc] at hok
      exact absurd hok (by simp)
    | true =>
      obtain ⟨t, hget⟩ := dictGet_isSome_of_contains _ _ hc
      rw [update_task_status_eq_ok s task_id b now t hget] at hok
      injection hok with h2
      injection h2 with ha hb
      subst ha
      exact ⟨rfl, dictGet_set_ne s.tasks_db task_id k (updatedTask t b now) hk⟩
  · intro s' hok
    cases hc : dictContains s.tasks_db task_id with
    | false =>
      rw [delete_task_eq_error s task_id hc] at hok
      exact absurd hok (by simp)
    | true =>
      rw [delete_task_eq_ok s task_id hc] at hok
      injection hok with h2
      subst h2
      exact ⟨rfl, dictGet_delete_ne s.tasks_db task_id k hk⟩
  · simp only [create_task]
    exact dictGet_set_ne s.tasks_db (s.task_id_counter + 1) k _ hk'
  · simp only [create_task]
    exact dictGet_set_self s.tasks_db (s.task_id_counter + 1) _

/-- The store produced by updating the sample task's status at time 4. -/
def updStore : Store :=
  { tasks_db := [(1, updatedTask sampleTask ⟨TaskStatus.completed⟩ 4)]
    task_id_counter := 1 }

/-- The store produced by deleting the sample task. -/
def delStore : Store :=
  { tasks_db := [], task_id_counter := 1 }

/-- Witness for C9 at concrete inputs (`task_id = 1`, untouched key 3,
fresh id 2). -/
theorem frame_spec_witness :
    (updStore.task_id_counter = sampleStore.task_id_counter ∧
     dictGet updStore.tasks_db 3 = dictGet sampleStore.tasks_db 3) ∧
    (delStore.task_id_counter = sampleStore.task_id_counter ∧
     dictGet delStore.tasks_db 3 = dictGet sampleStore.tasks_db 3) ∧
    dictGet (create_task sampleStore { description := "b" } 4).1.tasks_db 3 =
      dictGet sampleStore.tasks_db 3 ∧
    dictGet (create_task sampleStore { description := "b" } 4).1.tasks_db
        (sampleStore.task_id_counter + 1) =
      some (create_task sampleStore { description := "b" } 4).2 := by
  have h := frame_spec sampleStore 1 3 ⟨TaskStatus.completed⟩
    { description := "b" } 4 (by decide) (by decide)
  exact ⟨h.1 updStore (updatedTask sampleTask ⟨TaskStatus.completed⟩ 4) (by rfl),
    h.2.1 delStore (by rfl), h.2.2.1, h.2.2.2⟩

/-- C4: once `delete(id)` succeeds in a reachable store, `get(id)` fails
with NotFound in every later reachable state — nothing ever reintroduces
the id — and the ids assigned by the creates of any request sequence are
strictly increasing, so ids are unique across the store's lifetime and
never reused even after deletion. -/
theorem delete_forever_spec (pre post : List (Op × Nat)) (id : Int)
    (s' : Store) (h : delete_task (runOps initStore pre) id = Except.ok s') :
    get_task (runOps s' post) id = Except.error (notFoundExc id) ∧
    (assignedIds initStore pre).Pairwise (· < ·) := by
  have hinv : StoreInv (runOps initStore pre) :=
    storeInv_runOps pre initStore storeInv_init
  have hc : dictContains (runOps initStore pre).tasks_db id = true := by
    cases hcc : dictContains (runOps initStore pre).tasks_db id with
    | false =>
      rw [delete_task_eq_error _ id hcc] at h
      exact absurd h (by simp)
    | true => rfl
  have hs' : s' = { runOps initStore pre with
      tasks_db := dictDelete (runOps initStore pre).tasks_db id } := by
    rw [delete_task_eq_ok _ id hc] at h
    injection h with h2
    exact h2.symm
  have hle : id ≤ (runOps initStore pre).task_id_counter :=
    hinv.1 id ((dictContains_true_iff _ _).mp hc)
  have hnd : (storeKeys (runOps initStore pre)).Nodup :=
    hinv.2.1.imp (fun hlt => ne_of_lt hlt)
  have habs : dictContains s'.tasks_db id = false := by
    rw [hs']
    exact dictContains_delete_self _ id hnd
  have hinv' : StoreInv s' := by
    rw [hs']
    exact storeInv_delete _ id hinv
  have hle' : id ≤ s'.task_id_counter := by
    rw [hs']
    exact hle
  exact ⟨get_task_eq_error _ id (absent_stays_absent post s' id hinv' habs hle'),
    assignedIds_pairwise pre initStore⟩

/-- Witness for C4: create task 1, delete it, then a later create assigns
id 2 and `get 1` still answers NotFound. -/
theorem delete_forever_spec_witness :
    get_task (runOps { tasks_db := [], task_id_counter := 1 }
        [(Op.create { description := "b" }, 1)]) 1 =
      Except.error (notFoundExc 1) ∧
    (assignedIds initStore
      [(Op.create { description := "a" }, 0)]).Pairwise (· < ·) :=
  delete_forever_spec [(Op.create { description := "a" }, 0)]
    [(Op.create { description := "b" }, 1)] 1
    { tasks_db := [], task_id_counter := 1 } (by rfl)

/-- C5: after any request sequence with N creates (all succeed) and M
successful deletes, `list` returns exactly N − M records. -/
theorem list_count_spec (tr : List (Op × Nat)) :
    (get_tasks (runOps initStore tr)).length =
      countCreates tr - countDeletes initStore tr ∧
    countDeletes initStore tr ≤ countCreates tr := by
  have h := length_runOps tr initStore storeInv_init
  have h0 : initStore.tasks_db.length = 0 := rfl
  have hlen : (get_tasks (runOps initStore tr)).length =
      (runOps initStore tr).tasks_db.length := by
    simp [get_tasks]
  rw [h0] at h
  constructor <;> omega

/-- C6: in every store state reached by a request sequence whose
timestamps are monotone, every stored task satisfies
`created_at ≤ updated_at`. -/
theorem timestamps_spec (tr : List (Op × Nat)) (h : timesMono 0 tr) :
    ∀ task ∈ get_tasks (runOps initStore tr),
      task.created_at ≤ task.updated_at := by
  have hinit : TimeInv initStore 0 := by
    intro p hp
    simp [initStore] at hp
  obtain ⟨t', hinv⟩ := timeInv_runOps tr initStore 0 hinit h
  intro task htask
  simp only [get_tasks, List.mem_map] at htask
  obtain ⟨p, hp, hpe⟩ := htask
  rw [← hpe]
  exact (hinv p hp).1

/-- The single record stored after creating a task at time 1 and updating
its status at time 2. -/
def witTask : Task :=
  { id := 1
    description := "a"
    status := TaskStatus.completed
    created_at := 1
    updated_at := 2 }

/-- Witness for C6: after a create at time 1 followed by an update at
time 2, the stored record has `created_at ≤ updated_at`. -/
theorem timestamps_spec_witness :
    witTask.created_at ≤ witTask.updated_at :=
  timestamps_spec
    [(Op.create { description := "a" }, 1),
     (Op.update 1 ⟨TaskStatus.completed⟩, 2)]
    ⟨by omega, by omega, trivial⟩
    witTask (by decide)

/-- C10: `list` returns the stored records in insertion order, which
coincides with ascending order of creation: in every reachable state the
sequence of listed task ids is strictly increasing. -/
theorem list_order_spec (tr : List (Op × Nat)) :
    ((get_tasks (runOps initStore tr)).map Task.id).Pairwise (· < ·) := by
  have hinv := storeInv_runOps tr initStore storeInv_init
  have hmap : (get_tasks (runOps initStore tr)).map Task.id =
      storeKeys (runOps initStore tr) := by
    simp only [get_tasks, storeKeys, List.map_map]
    exact List.map_congr_left (fun p hp => hinv.2.2 p hp)
  rw [hmap]
  exact hinv.2.1

/-! ### The HTTP validation boundary

The pydantic models `TaskCreate` and `TaskUpdate` in `myapp.py` declare
which fields are required and that `status` must be one of the four enum
strings; the machinery that rejects a non-conforming body before the
handler runs is FastAPI/pydantic code outside this repository, so the
boundary itself is modelled from the spec ("400 on invalid body"). -/

/-- Modelled from the spec: pydantic's parse of a raw status string into
the closed enum declared by `TaskStatus` in `myapp.py`; any string outside
the four declared values is a validation failure. -/
def parseStatus : String → Option TaskStatus
  | "pending" => some TaskStatus.pending
  | "in_progress" => some TaskStatus.in_progress
  | "completed" => some TaskStatus.completed
  | "cancelled" => some TaskStatus.cancelled
  | _ => none

/-- A request body as received, before validation: each relevant field is
either absent or a raw string. -/
structure RawBody where
  description : Option String
  status : Option String
deriving DecidableEq, Repr

/-- Modelled from the spec: validation of a `POST /tasks` body against the
`TaskCreate` model — `description` is required, `status` is optional,
defaults to `pending`, and must be one of the four enum strings. -/
def parseTaskCreate (b : RawBody) : Option TaskCreate :=
  match b.description with
  | none => none
  | some d =>
    match b.status with
    | none => some { description := d }
    | some str =>
      match parseStatus str with
      | none => none
      | some st => some { description := d, status := st }

/-- Modelled from the spec: validation of a `PUT /tasks/{task_id}` body
against the `TaskUpdate` model — `status` is required and must be one of
the four enum strings. -/
def parseTaskUpdate (b : RawBody) : Option TaskUpdate :=
  match b.status with
  | none => none
  | some str =>
    match parseStatus str with
    | none => none
    | some st => some { status := st }

/-- Modelled from the spec: the HTTP boundary of `POST /tasks`. An invalid
body is rejected with 400 before the handler runs, leaving the store
untouched; a valid body runs `create_task` and answers 201. -/
def postTasksEndpoint (s : Store) (b : RawBody) (now : Nat) : Store × Nat :=
  match parseTaskCreate b with
  | none => (s, 400)
  | some tc => ((create_task s tc now).1, 201)

/-- Modelled from the spec: the HTTP boundary of `PUT /tasks/{task_id}`.
An invalid body is rejected with 400 before the handler runs, leaving the
store untouched; a valid body runs `update_task_status`, answering 200 on
success and the raised status code (404) on failure. -/
def putTaskEndpoint (s : Store) (task_id : Int) (b : RawBody) (now : Nat) :
    Store × Nat :=
  match parseTaskUpdate b with
  | none => (s, 400)
  | some tu =>
    match update_task_status s task_id tu now with
    | .ok r => (r.1, 200)
    | .error e => (s, e.status_code)

/-- C7: a `POST /tasks` body missing `description` or carrying a status
string outside the four enum values, and a `PUT /tasks/{task_id}` body
with a missing or invalid status, are each answered with HTTP 400 and the
store is left exactly as it was. -/
theorem invalid_body_spec (s : Store) (b : RawBody) (task_id : Int)
    (now : Nat) :
    (b.description = none → postTasksEndpoint s b now = (s, 400)) ∧
    (∀ str, b.status = some str → parseStatus str = none →
      postTasksEndpoint s b now = (s, 400) ∧
      putTaskEndpoint s task_id b now = (s, 400)) ∧
    (b.status = none → putTaskEndpoint s task_id b now = (s, 400)) := by
  refine ⟨?_, ?_, ?_⟩
  · intro hd
    simp only [postTasksEndpoint, parseTaskCreate, hd]
  · intro str hst hbad
    constructor
    · simp only [postTasksEndpoint, parseTaskCreate, hst, hbad]
      cases b.description <;> simp
    · simp only [putTaskEndpoint, parseTaskUpdate, hst, hbad]
  · intro hst
    simp only [putTaskEndpoint, parseTaskUpdate, hst]

/-- Witness for C7 at concrete malformed bodies: a POST body missing
`description`, a POST/PUT body with the non-enum status `"done"`, and a
PUT body missing `status`. -/
theorem invalid_body_spec_witness :
    postTasksEndpoint sampleStore ⟨none, none⟩ 3 = (sampleStore, 400) ∧
    postTasksEndpoint sampleStore ⟨some "x", some "done"⟩ 3 = (sampleStore, 400) ∧
    putTaskEndpoint sampleStore 1 ⟨some "x", some "done"⟩ 3 = (sampleStore, 400) ∧
    putTaskEndpoint sampleStore 1 ⟨some "x", none⟩ 3 = (sampleStore, 400) := by
  have h1 := (invalid_body_spec sampleStore ⟨none, none⟩ 1 3).1 rfl
  have h2 := (invalid_body_spec sampleStore ⟨some "x", some "done"⟩ 1 3).2.1
    "done" rfl rfl
  have h3 := (invalid_body_spec sampleStore ⟨some "x", none⟩ 1 3).2.2 rfl
  exact ⟨h1, h2.1, h2.2, h3⟩

end Myapp
